import Mathlib

/-!
Shallow embedding of the prescription-fulfillment dashboard (`src/App.js`).

Conventions of the embedding:
* JS `Date` values are modelled as natural numbers (milliseconds since the
  epoch, the value of `Date.prototype.getTime`); date equality in the source
  (`getTime() === getTime()`) is `Nat` equality, and the comparator's
  `dateA - dateB` is integer subtraction.
* Statuses and actors are the string literals the source uses.
* Nullable values (`tracking`, `rxId`) are `Option String`; a JS template
  literal renders `null` as the string "null" (`jsTemplate`).
* `toLocaleDateString('en-US')` is locale/environment dependent; `formatDate`
  abstracts the rendering to a canonical numeral while keeping the source's
  null check (`'N/A'`).  The claims proved below depend only on the rendered
  date being embedded verbatim in log messages.
* Calendar month addition (`addMonths`, built on `Date.prototype.setMonth`,
  which operates in local time) is timezone dependent; subscription creation
  is therefore parameterised by the month-addition function `addM`.
* `Array.prototype.sort(comparator)` is modelled by `List.mergeSort`, a
  stable merge sort, which is what the ECMAScript specification mandates for
  consistent comparators: the list is split into two contiguous halves and
  merged, emitting the left element exactly when `comparator(l, r) <= 0`.
* Firestore reads/writes are the collaborator boundary: each mutating
  operation is modelled as the pure transformation it applies to the single
  subscription record it targets, with the wall clock passed explicitly.
-/

/-- One monthly delivery cycle inside a subscription (source: the objects
pushed by the creation loop in `SubscriptionForm.handleSubmit`). -/
structure Fulfillment where
  fulfillmentDate : Nat
  status : String
  tracking : Option String
  rxId : Option String
deriving Repr, DecidableEq

/-- One entry of the append-only communication log. -/
structure LogEntry where
  date : Nat
  message : String
  actor : String
deriving Repr, DecidableEq

/-- A subscription record as stored and streamed by the document store. -/
structure Subscription where
  id : String
  patientName : String
  drugName : String
  newRxCall : Bool
  duration : Nat
  status : String
  physicianStatus : String
  startDate : Nat
  fulfillments : List Fulfillment
  communicationLog : List LogEntry
deriving Repr, DecidableEq

/-- Status derivation from the `onSnapshot` handler: `allFulfilled` is
`fulfillments.every(f => f.status === 'Shipped')`, `requiresAction` is
`fulfillments.some(f => f.status === 'RX Received')`; the stored status is
kept when it is `'On Hold'` and otherwise overwritten in priority order. -/
def deriveStatus (sub : Subscription) : String :=
  let allFulfilled := sub.fulfillments.all (fun f => f.status = "Shipped")
  let requiresAction := sub.fulfillments.any (fun f => f.status = "RX Received")
  if sub.status = "On Hold" then sub.status
  else if allFulfilled then "Fulfilled"
  else if requiresAction then "Action Required"
  else "Active"

/-- The per-record step of the snapshot pipeline
(`subs.map(sub => ({ ...sub, status: overallStatus }))`). -/
def applyDerivedStatus (sub : Subscription) : Subscription :=
  { sub with status := deriveStatus sub }

/-- Source helper `formatDate`: a null date renders as `'N/A'`; otherwise the
locale rendering `toLocaleDateString('en-US')` is abstracted to a canonical
numeral rendering of the timestamp. -/
def formatDate : Option Nat → String
  | none => "N/A"
  | some d => toString d

/-- Rendering of a nullable string inside a JS template literal: `null`
renders as the four characters "null". -/
def jsTemplate : Option String → String
  | none => "null"
  | some s => s

/-- The per-fulfillment update applied by `updateFulfillment`'s map: a
fulfillment whose date equals the key gets the new status, and gets the new
tracking value only when one was supplied (`tracking !== null`). -/
def applyFulfillmentUpdate (key : Nat) (newStatus : String)
    (tracking : Option String) (f : Fulfillment) : Fulfillment :=
  if f.fulfillmentDate = key then
    { f with status := newStatus,
             tracking := if tracking.isSome then tracking else f.tracking }
  else f

/-- Source `addLog`: appends one `{date: now, message, actor}` entry to the
end of the subscription's communication log. -/
def addLog (sub : Subscription) (now : Nat) (message : String)
    (actor : String) : Subscription :=
  { sub with communicationLog :=
      sub.communicationLog ++ [{ date := now, message := message, actor := actor }] }

/-- Source `updateFulfillment`: maps `applyFulfillmentUpdate` over the
fulfillments, then unconditionally calls `addLog` with a message and actor
chosen by whether the new status is `'Shipped'`.  The key is the target
fulfillment's `fulfillmentDate` (the source compares `getTime()` values). -/
def updateFulfillment (sub : Subscription) (key : Nat) (newStatus : String)
    (tracking : Option String) (now : Nat) : Subscription :=
  let newFulfillments := sub.fulfillments.map (applyFulfillmentUpdate key newStatus tracking)
  let logMessage :=
    if newStatus = "Shipped" then
      "Marked fulfillment for " ++ formatDate (some key) ++ " as Shipped. Tracking: "
        ++ jsTemplate tracking
    else
      "Updated fulfillment for " ++ formatDate (some key) ++ " to status: "
        ++ newStatus ++ "."
  let actor := if newStatus = "Shipped" then "Pharmacy Staff" else "System"
  let withLog := addLog sub now logMessage actor
  { withLog with fulfillments := newFulfillments }

/-- Creation branch of `SubscriptionForm.handleSubmit`: materialises the full
fulfillment series up front.  `addM` is the source helper `addMonths`
(calendar month addition in local time, hence a parameter of the model);
`now` is the creation instant (both `new Date()` and `Date.now()`). -/
def createSubscription (addM : Nat → Nat → Nat) (patientName drugName : String)
    (newRxCall : Bool) (duration : Nat) (status physicianStatus : String)
    (id : String) (now : Nat) : Subscription :=
  { id := id
    patientName := patientName
    drugName := drugName
    newRxCall := newRxCall
    duration := duration
    status := status
    physicianStatus := physicianStatus
    startDate := now
    fulfillments := (List.range duration).map (fun i =>
      { fulfillmentDate := addM now i
        status := if i = 0 then "RX Received" else "Scheduled"
        tracking := none
        rxId := if i = 0 then some ("RX-INITIAL-" ++ toString now) else none })
    communicationLog := [{ date := now, message := "Subscription created.", actor := "System" }] }

/-- Source `getNextActionableDate`: the date of the first fulfillment, in
stored order, whose status is not `'Shipped'`; `null` when all are shipped. -/
def getNextActionableDate (sub : Subscription) : Option Nat :=
  (sub.fulfillments.find? (fun f => f.status ≠ "Shipped")).map (·.fulfillmentDate)

/-- The comparator passed to `.sort` in `sortedSubscriptions`, returning the
sign-relevant integer of the source: `'Action Required'` first, then the
null checks on the next actionable dates, then `dateA - dateB`. -/
def subCmp (a b : Subscription) : Int :=
  if a.status = "Action Required" ∧ b.status ≠ "Action Required" then -1
  else if b.status = "Action Required" ∧ a.status ≠ "Action Required" then 1
  else
    match getNextActionableDate a, getNextActionableDate b with
    | none, _ => 1
    | some _, none => -1
    | some da, some db => (da : Int) - (db : Int)

/-- Boolean form of "the comparator keeps `a` before `b`", the switch a
stable merge sort consults (`comparator(a, b) <= 0`). -/
def subLe (a b : Subscription) : Bool := subCmp a b ≤ 0

/-- Source `sortedSubscriptions = [...subscriptions].sort(comparator)`,
modelled as a stable merge sort driven by the comparator. -/
def sortedSubscriptions (subs : List Subscription) : List Subscription :=
  subs.mergeSort subLe

/-- The snapshot pipeline: derive each record's aggregate status, then order
the collection for display. -/
def processSnapshot (subs : List Subscription) : List Subscription :=
  sortedSubscriptions (subs.map applyDerivedStatus)

/-- Concrete record used by witnesses and counterexamples: one fulfillment,
dated 100, holding a received prescription. -/
def exSub : Subscription :=
  { id := "s1", patientName := "Pat", drugName := "Drug", newRxCall := false,
    duration := 1, status := "Active", physicianStatus := "Pending",
    startDate := 100,
    fulfillments := [{ fulfillmentDate := 100, status := "RX Received",
                       tracking := none, rxId := some "RX-1" }],
    communicationLog := [] }

/-- Concrete record with two fulfillments sharing the date 100. -/
def exSubDup : Subscription :=
  { id := "s2", patientName := "Pat", drugName := "Drug", newRxCall := false,
    duration := 2, status := "Active", physicianStatus := "Pending",
    startDate := 100,
    fulfillments := [{ fulfillmentDate := 100, status := "RX Received",
                       tracking := none, rxId := some "RX-1" },
                     { fulfillmentDate := 100, status := "Scheduled",
                       tracking := none, rxId := none }],
    communicationLog := [] }

/-- Helper: `pat` occurs as a contiguous substring of `s`. -/
def containsStr (s pat : String) : Prop := ∃ p q, s = p ++ pat ++ q

/-- Primary sort rank of a subscription: 0 when its (derived) status is
`'Action Required'`, else 1. -/
def arRank (s : Subscription) : Nat :=
  if s.status = "Action Required" then 0 else 1

/-- Secondary sort rank: 0 when a next actionable date exists, else 1
(dateless records sort last). -/
def dateRank (s : Subscription) : Nat :=
  match getNextActionableDate s with
  | none => 1
  | some _ => 0

/-- Tertiary sort value: the next actionable date, 0 when there is none. -/
def dateVal (s : Subscription) : Nat :=
  match getNextActionableDate s with
  | none => 0
  | some d => d

/-- Lexicographic order on the three sort components.  It is a total
preorder that the comparator refines: whenever the comparator answers
"keep before" the pair is in `keyLe`, and whenever it answers "move after"
the reversed pair is in `keyLe`. -/
def keyLe (a b : Subscription) : Prop :=
  arRank a < arRank b ∨
    (arRank a = arRank b ∧
      (dateRank a < dateRank b ∨
        (dateRank a = dateRank b ∧ dateVal a ≤ dateVal b)))

/-- Fully shipped record `a`: no next actionable date. -/
def exShippedA : Subscription :=
  { id := "a", patientName := "PatA", drugName := "Drug", newRxCall := false,
    duration := 1, status := "Fulfilled", physicianStatus := "Approved",
    startDate := 50,
    fulfillments := [{ fulfillmentDate := 50, status := "Shipped",
                       tracking := some "1Z1", rxId := none }],
    communicationLog := [] }

/-- Fully shipped record `b`, distinct from `exShippedA`. -/
def exShippedB : Subscription :=
  { id := "b", patientName := "PatB", drugName := "Drug", newRxCall := false,
    duration := 1, status := "Fulfilled", physicianStatus := "Approved",
    startDate := 50,
    fulfillments := [{ fulfillmentDate := 50, status := "Shipped",
                       tracking := some "1Z2", rxId := none }],
    communicationLog := [] }

/-- Dated record `a` with next actionable date 50. -/
def exTiedA : Subscription :=
  { id := "a", patientName := "PatA", drugName := "Drug", newRxCall := false,
    duration := 1, status := "Active", physicianStatus := "Approved",
    startDate := 50,
    fulfillments := [{ fulfillmentDate := 50, status := "Scheduled",
                       tracking := none, rxId := none }],
    communicationLog := [] }

/-- Dated record `b` with the same sort key as `exTiedA` but distinct. -/
def exTiedB : Subscription :=
  { id := "b", patientName := "PatB", drugName := "Drug", newRxCall := false,
    duration := 1, status := "Active", physicianStatus := "Approved",
    startDate := 50,
    fulfillments := [{ fulfillmentDate := 50, status := "Scheduled",
                       tracking := none, rxId := none }],
    communicationLog := [] }

/-- The fulfillments component of `updateFulfillment` is the map of the
per-fulfillment update over the stored list. -/
theorem updateFulfillment_fulfillments (sub : Subscription) (key : Nat)
    (newStatus : String) (tracking : Option String) (now : Nat) :
    (updateFulfillment sub key newStatus tracking now).fulfillments =
      sub.fulfillments.map (applyFulfillmentUpdate key newStatus tracking) := rfl

/-- The communication log after `updateFulfillment` is the old log with the
single new entry appended. -/
theorem updateFulfillment_communicationLog (sub : Subscription) (key : Nat)
    (newStatus : String) (tracking : Option String) (now : Nat) :
    (updateFulfillment sub key newStatus tracking now).communicationLog =
      sub.communicationLog ++
        [{ date := now
           message :=
             if newStatus = "Shipped" then
               "Marked fulfillment for " ++ formatDate (some key)
                 ++ " as Shipped. Tracking: " ++ jsTemplate tracking
             else
               "Updated fulfillment for " ++ formatDate (some key)
                 ++ " to status: " ++ newStatus ++ "."
           actor := if newStatus = "Shipped" then "Pharmacy Staff" else "System" }] := rfl

/-- C1: the derived aggregate status follows the priority order of the spec:
a stored `'On Hold'` is sticky and dominates; otherwise `'Fulfilled'` when
every fulfillment is `'Shipped'`; otherwise `'Action Required'` when some
fulfillment is `'RX Received'`; otherwise `'Active'`. -/
theorem deriveStatus_spec (sub : Subscription) :
    deriveStatus sub =
      if sub.status = "On Hold" then "On Hold"
      else if ∀ f ∈ sub.fulfillments, f.status = "Shipped" then "Fulfilled"
      else if ∃ f ∈ sub.fulfillments, f.status = "RX Received" then "Action Required"
      else "Active" := by
  simp only [deriveStatus]
  by_cases hHold : sub.status = "On Hold"
  · rw [if_pos hHold, if_pos hHold]
    exact hHold
  · rw [if_neg hHold, if_neg hHold]
    by_cases hAll : ∀ f ∈ sub.fulfillments, f.status = "Shipped"
    · have h1 : (sub.fulfillments.all fun f => decide (f.status = "Shipped")) = true := by
        simp only [List.all_eq_true, decide_eq_true_eq]
        exact hAll
      rw [if_pos h1, if_pos hAll]
    · have h1 : ¬((sub.fulfillments.all fun f => decide (f.status = "Shipped")) = true) := by
        simp only [List.all_eq_true, decide_eq_true_eq]
        exact hAll
      rw [if_neg h1, if_neg hAll]
      by_cases hAny : ∃ f ∈ sub.fulfillments, f.status = "RX Received"
      · have h2 : (sub.fulfillments.any fun f => decide (f.status = "RX Received")) = true := by
          simp only [List.any_eq_true, decide_eq_true_eq]
          exact hAny
        rw [if_pos h2, if_pos hAny]
      · have h2 : ¬((sub.fulfillments.any fun f => decide (f.status = "RX Received")) = true) := by
          simp only [List.any_eq_true, decide_eq_true_eq]
          exact hAny
        rw [if_neg h2, if_neg hAny]

/-- C9: on an empty fulfillments list the "every fulfillment shipped" check
is vacuously true, so any subscription not on hold derives `'Fulfilled'`. -/
theorem deriveStatus_empty_fulfillments (sub : Subscription)
    (hEmpty : sub.fulfillments = []) (hHold : sub.status ≠ "On Hold") :
    deriveStatus sub = "Fulfilled" := by
  simp [deriveStatus, hEmpty, hHold]

/-- Witness for C9 at a concrete record. -/
theorem deriveStatus_empty_fulfillments_witness :
    deriveStatus
      { id := "s1", patientName := "p", drugName := "d", newRxCall := false,
        duration := 0, status := "Active", physicianStatus := "Pending",
        startDate := 0, fulfillments := [], communicationLog := [] } = "Fulfilled" :=
  deriveStatus_empty_fulfillments _ (by decide) (by decide)

/-- C8: the fulfillment count equals `duration` at creation, and both
mutating operations (fulfillment transition, log append) preserve the
fulfillments: nothing is ever added or removed. -/
theorem fulfillment_count_invariant :
    (∀ addM patientName drugName newRxCall duration status physicianStatus id now,
        (createSubscription addM patientName drugName newRxCall duration status
            physicianStatus id now).fulfillments.length = duration) ∧
    (∀ sub key newStatus tracking now,
        (updateFulfillment sub key newStatus tracking now).fulfillments.length =
          sub.fulfillments.length) ∧
    (∀ sub now message actor,
        (addLog sub now message actor).fulfillments = sub.fulfillments) := by
  refine ⟨fun addM pn dn nrc dur st ps id now => ?_, fun sub key st tr now => ?_,
    fun sub now msg act => rfl⟩
  · simp [createSubscription]
  · simp [updateFulfillment_fulfillments]

/-- C7: creating a subscription with a positive duration materialises exactly
`duration` fulfillments, fulfillment `i` dated `i` month-steps after the
start instant; index 0 starts at `'RX Received'` with a non-null `rxId`, all
later indices start at `'Scheduled'` with null tracking and null `rxId`. -/
theorem createSubscription_materializes_schedule (addM : Nat → Nat → Nat)
    (patientName drugName : String) (newRxCall : Bool) (duration : Nat)
    (status physicianStatus id : String) (now : Nat) (hpos : 0 < duration) :
    (createSubscription addM patientName drugName newRxCall duration status
        physicianStatus id now).fulfillments.length = duration ∧
    ∀ i f,
      (createSubscription addM patientName drugName newRxCall duration status
          physicianStatus id now).fulfillments[i]? = some f →
      f.fulfillmentDate = addM now i ∧
      f.status = (if i = 0 then "RX Received" else "Scheduled") ∧
      f.tracking = none ∧
      (i = 0 → f.rxId.isSome = true) ∧
      (1 ≤ i → f.rxId = none) := by
  refine ⟨by simp [createSubscription], ?_⟩
  intro i f hf
  simp only [createSubscription, List.getElem?_map] at hf
  by_cases hi : i < duration
  · rw [List.getElem?_range hi] at hf
    simp only [Option.map_some'] at hf
    rw [Option.some_inj] at hf
    subst hf
    refine ⟨rfl, rfl, rfl, ?_, ?_⟩
    · intro h0
      simp [h0]
    · intro h1
      have hne : ¬ i = 0 := by omega
      simp [hne]
  · have hlen : (List.range duration).length ≤ i := by
      simp only [List.length_range]
      omega
    rw [List.getElem?_eq_none hlen] at hf
    simp at hf

/-- Witness for C7 at duration 3 with a concrete month-step function. -/
theorem createSubscription_materializes_schedule_witness :
    (createSubscription (fun d i => d + i) "Pat" "Drug" false 3 "Pending"
        "Pending" "s1" 10).fulfillments.length = 3 ∧
    ({ fulfillmentDate := 11, status := "Scheduled", tracking := none,
       rxId := none } : Fulfillment).fulfillmentDate = 10 + 1 := by
  obtain ⟨hlen, hidx⟩ :=
    createSubscription_materializes_schedule (fun d i => d + i) "Pat" "Drug"
      false 3 "Pending" "Pending" "s1" 10 (by decide)
  have h1 := hidx 1
    { fulfillmentDate := 11, status := "Scheduled", tracking := none, rxId := none }
    (by decide)
  exact ⟨hlen, h1.1⟩

/-- One application of the per-fulfillment update absorbs a second identical
application. -/
theorem applyFulfillmentUpdate_idem (key : Nat) (newStatus : String)
    (tracking : Option String) (f : Fulfillment) :
    applyFulfillmentUpdate key newStatus tracking
        (applyFulfillmentUpdate key newStatus tracking f) =
      applyFulfillmentUpdate key newStatus tracking f := by
  by_cases h : f.fulfillmentDate = key
  · simp only [applyFulfillmentUpdate, h, if_pos]
    cases tracking <;> simp
  · simp [applyFulfillmentUpdate, h]

/-- C2: a transition keyed on a fulfillment's date replaces that
fulfillment's status, replaces its tracking only when a non-null tracking
value is supplied (otherwise preserving it), leaves non-matching
fulfillments alone, and re-applying the identical transition leaves the
fulfillment state unchanged. -/
theorem updateFulfillment_replaces_and_idempotent (sub : Subscription)
    (key : Nat) (newStatus : String) (tracking : Option String)
    (now now2 : Nat) (i : Nat) (f : Fulfillment)
    (hf : sub.fulfillments[i]? = some f) :
    (f.fulfillmentDate = key →
        (updateFulfillment sub key newStatus tracking now).fulfillments[i]? =
          some { f with status := newStatus,
                        tracking := if tracking.isSome then tracking else f.tracking }) ∧
    (f.fulfillmentDate ≠ key →
        (updateFulfillment sub key newStatus tracking now).fulfillments[i]? = some f) ∧
    (updateFulfillment (updateFulfillment sub key newStatus tracking now) key
        newStatus tracking now2).fulfillments =
      (updateFulfillment sub key newStatus tracking now).fulfillments := by
  refine ⟨?_, ?_, ?_⟩
  · intro h
    simp [updateFulfillment_fulfillments, hf, applyFulfillmentUpdate, h]
  · intro h
    simp [updateFulfillment_fulfillments, hf, applyFulfillmentUpdate, h]
  · rw [updateFulfillment_fulfillments, updateFulfillment_fulfillments, List.map_map]
    exact List.map_congr_left (fun g _ => applyFulfillmentUpdate_idem key newStatus tracking g)

/-- Witness for C2: shipping the dated-100 fulfillment of `exSub` with a
supplied tracking value. -/
theorem updateFulfillment_replaces_and_idempotent_witness :
    (updateFulfillment exSub 100 "Shipped" (some "1Z999") 7).fulfillments[0]? =
      some { fulfillmentDate := 100, status := "Shipped",
             tracking := some "1Z999", rxId := some "RX-1" } ∧
    (updateFulfillment (updateFulfillment exSub 100 "Shipped" (some "1Z999") 7)
        100 "Shipped" (some "1Z999") 9).fulfillments =
      (updateFulfillment exSub 100 "Shipped" (some "1Z999") 7).fulfillments := by
  obtain ⟨h1, -, h3⟩ :=
    updateFulfillment_replaces_and_idempotent exSub 100 "Shipped" (some "1Z999")
      7 9 0 { fulfillmentDate := 100, status := "RX Received", tracking := none,
              rxId := some "RX-1" } (by decide)
  exact ⟨h1 rfl, h3⟩

/-- C10: when several fulfillments share the key date, the transition updates
every one of them, not only the first. -/
theorem updateFulfillment_updates_all_matches (sub : Subscription) (key : Nat)
    (newStatus : String) (tracking : Option String) (now : Nat)
    (i j : Nat) (fi fj : Fulfillment) (hij : i ≠ j)
    (hfi : sub.fulfillments[i]? = some fi) (hfj : sub.fulfillments[j]? = some fj)
    (hdi : fi.fulfillmentDate = key) (hdj : fj.fulfillmentDate = key) :
    (updateFulfillment sub key newStatus tracking now).fulfillments[i]? =
      some { fi with status := newStatus,
                     tracking := if tracking.isSome then tracking else fi.tracking } ∧
    (updateFulfillment sub key newStatus tracking now).fulfillments[j]? =
      some { fj with status := newStatus,
                     tracking := if tracking.isSome then tracking else fj.tracking } := by
  constructor
  · simp [updateFulfillment_fulfillments, hfi, applyFulfillmentUpdate, hdi]
  · simp [updateFulfillment_fulfillments, hfj, applyFulfillmentUpdate, hdj]

/-- Witness for C10 on the duplicate-date record `exSubDup`. -/
theorem updateFulfillment_updates_all_matches_witness :
    (0 : Nat) ≠ 1 ∧
    exSubDup.fulfillments[0]? =
      some { fulfillmentDate := 100, status := "RX Received", tracking := none,
             rxId := some "RX-1" } ∧
    exSubDup.fulfillments[1]? =
      some { fulfillmentDate := 100, status := "Scheduled", tracking := none,
             rxId := none } ∧
    ((updateFulfillment exSubDup 100 "Shipped" (some "1Z999") 7).fulfillments[0]? =
        some { fulfillmentDate := 100, status := "Shipped", tracking := some "1Z999",
               rxId := some "RX-1" } ∧
      (updateFulfillment exSubDup 100 "Shipped" (some "1Z999") 7).fulfillments[1]? =
        some { fulfillmentDate := 100, status := "Shipped", tracking := some "1Z999",
               rxId := none }) :=
  ⟨by decide, by decide, by decide,
    updateFulfillment_updates_all_matches exSubDup 100 "Shipped" (some "1Z999") 7
      0 1 { fulfillmentDate := 100, status := "RX Received", tracking := none,
            rxId := some "RX-1" }
      { fulfillmentDate := 100, status := "Scheduled", tracking := none,
        rxId := none }
      (by decide) (by decide) (by decide) (by decide) (by decide)⟩

/-- C3: every transition appends exactly one entry to the communication log;
a `'Shipped'` transition logs as `'Pharmacy Staff'` with the formatted date
and the tracking value in the message, any other transition logs as
`'System'` with the formatted date and the target status name. -/
theorem updateFulfillment_appends_one_log (sub : Subscription) (key : Nat)
    (newStatus : String) (tracking : Option String) (now : Nat) :
    (updateFulfillment sub key newStatus tracking now).communicationLog.length =
      sub.communicationLog.length + 1 ∧
    (updateFulfillment sub key newStatus tracking now).communicationLog.take
        sub.communicationLog.length = sub.communicationLog ∧
    ∃ e, (updateFulfillment sub key newStatus tracking now).communicationLog.getLast?
          = some e ∧
      e.date = now ∧
      (newStatus = "Shipped" →
        e.actor = "Pharmacy Staff" ∧
        containsStr e.message (formatDate (some key)) ∧
        ∀ t, tracking = some t → containsStr e.message t) ∧
      (newStatus ≠ "Shipped" →
        e.actor = "System" ∧
        containsStr e.message (formatDate (some key)) ∧
        containsStr e.message newStatus) := by
  by_cases h : newStatus = "Shipped"
  · subst h
    rw [updateFulfillment_communicationLog]
    simp only [if_pos rfl]
    refine ⟨by simp, List.take_left _ _, _, List.getLast?_concat _, rfl,
      fun _ => ⟨rfl, ?_, ?_⟩, fun hne => absurd rfl hne⟩
    · exact ⟨"Marked fulfillment for ",
        " as Shipped. Tracking: " ++ jsTemplate tracking, by simp [String.append_assoc]⟩
    · intro t ht
      subst ht
      exact ⟨"Marked fulfillment for " ++ formatDate (some key) ++ " as Shipped. Tracking: ",
        "", by simp [String.append_assoc, jsTemplate]⟩
  · rw [updateFulfillment_communicationLog]
    simp only [if_neg h]
    refine ⟨by simp, List.take_left _ _, _, List.getLast?_concat _, rfl,
      fun hs => absurd hs h, fun _ => ⟨rfl, ?_, ?_⟩⟩
    · exact ⟨"Updated fulfillment for ",
        " to status: " ++ newStatus ++ ".", by simp [String.append_assoc]⟩
    · exact ⟨"Updated fulfillment for " ++ formatDate (some key) ++ " to status: ",
        ".", by simp [String.append_assoc]⟩

/-- Witness for C3: the entry logged when shipping `exSub`'s fulfillment. -/
theorem updateFulfillment_appends_one_log_witness :
    ∃ e, (updateFulfillment exSub 100 "Shipped" (some "1Z999") 7).communicationLog.getLast?
        = some e ∧
      e.date = 7 ∧ e.actor = "Pharmacy Staff" ∧
      containsStr e.message (formatDate (some 100)) ∧
      containsStr e.message "1Z999" := by
  obtain ⟨-, -, e, he, hd, hship, -⟩ :=
    updateFulfillment_appends_one_log exSub 100 "Shipped" (some "1Z999") 7
  obtain ⟨ha, hfd, htr⟩ := hship rfl
  exact ⟨e, he, hd, ha, hfd, htr "1Z999" rfl⟩

/-- Counterexample for C4: a transition keyed on a date matching no
fulfillment of `exSub` still changes the subscription (a log entry is
appended), so the operation is not a no-op on the record. -/
theorem updateFulfillment_missing_key_not_noop :
    updateFulfillment exSub 200 "Intake Sent" none 5 ≠ exSub := by decide

/-- C4 (amended): a transition keyed on a date matching no fulfillment
leaves the fulfillments and every scalar field unchanged and raises no
error, but still appends exactly one communication-log entry. -/
theorem updateFulfillment_missing_key_behavior (sub : Subscription) (key : Nat)
    (newStatus : String) (tracking : Option String) (now : Nat)
    (hnone : ∀ f ∈ sub.fulfillments, f.fulfillmentDate ≠ key) :
    (updateFulfillment sub key newStatus tracking now).fulfillments = sub.fulfillments ∧
    (updateFulfillment sub key newStatus tracking now).communicationLog.length =
      sub.communicationLog.length + 1 ∧
    (updateFulfillment sub key newStatus tracking now).communicationLog.take
        sub.communicationLog.length = sub.communicationLog ∧
    (updateFulfillment sub key newStatus tracking now).id = sub.id ∧
    (updateFulfillment sub key newStatus tracking now).patientName = sub.patientName ∧
    (updateFulfillment sub key newStatus tracking now).drugName = sub.drugName ∧
    (updateFulfillment sub key newStatus tracking now).newRxCall = sub.newRxCall ∧
    (updateFulfillment sub key newStatus tracking now).duration = sub.duration ∧
    (updateFulfillment sub key newStatus tracking now).status = sub.status ∧
    (updateFulfillment sub key newStatus tracking now).physicianStatus = sub.physicianStatus ∧
    (updateFulfillment sub key newStatus tracking now).startDate = sub.startDate := by
  refine ⟨?_, ?_, ?_, rfl, rfl, rfl, rfl, rfl, rfl, rfl, rfl⟩
  · rw [updateFulfillment_fulfillments]
    have hid : ∀ f ∈ sub.fulfillments,
        applyFulfillmentUpdate key newStatus tracking f = f := by
      intro f hf
      simp [applyFulfillmentUpdate, hnone f hf]
    rw [List.map_congr_left hid]
    simp
  · rw [updateFulfillment_communicationLog]
    simp
  · rw [updateFulfillment_communicationLog]
    exact List.take_left _ _

/-- Witness for the amended C4 on `exSub` with the unmatched key 200. -/
theorem updateFulfillment_missing_key_behavior_witness :
    (updateFulfillment exSub 200 "Intake Sent" none 5).fulfillments = exSub.fulfillments ∧
    (updateFulfillment exSub 200 "Intake Sent" none 5).communicationLog.length =
      exSub.communicationLog.length + 1 := by
  obtain ⟨h1, h2, -⟩ :=
    updateFulfillment_missing_key_behavior exSub 200 "Intake Sent" none 5 (by decide)
  exact ⟨h1, h2⟩

/-- Transitivity of the lexicographic key order. -/
theorem keyLe_trans (a b c : Subscription) (hab : keyLe a b) (hbc : keyLe b c) :
    keyLe a c := by
  unfold keyLe at *
  omega

/-- A comparator verdict "keep `a` before `b`" implies the key order. -/
theorem subLe_imp_keyLe (a b : Subscription) (h : subLe a b = true) : keyLe a b := by
  unfold subLe subCmp at h
  unfold keyLe arRank dateRank dateVal
  by_cases hA : a.status = "Action Required" <;> by_cases hB : b.status = "Action Required" <;>
    simp only [hA, hB, ne_eq, not_true_eq_false, not_false_eq_true, and_true, and_false,
      true_and, false_and, if_true, if_false, decide_eq_true_eq] at h ⊢ <;>
    rcases hda : getNextActionableDate a with _ | da <;>
    rcases hdb : getNextActionableDate b with _ | db <;>
      simp only [hda, hdb] at h ⊢ <;>
      simp_all

/-- A comparator verdict "move `a` after `b`" implies the reversed key
order.  Note the both-dateless case: the comparator answers "move after" in
both directions there, yet the keys are equal, so both reversed pairs are
in `keyLe`. -/
theorem not_subLe_imp_keyLe (a b : Subscription) (h : subLe a b = false) :
    keyLe b a := by
  unfold subLe subCmp at h
  unfold keyLe arRank dateRank dateVal
  by_cases hA : a.status = "Action Required" <;> by_cases hB : b.status = "Action Required" <;>
    simp only [hA, hB, ne_eq, not_true_eq_false, not_false_eq_true, and_true, and_false,
      true_and, false_and, if_true, if_false, decide_eq_true_eq] at h ⊢ <;>
    rcases hda : getNextActionableDate a with _ | da <;>
    rcases hdb : getNextActionableDate b with _ | db <;>
      simp only [hda, hdb] at h ⊢ <;>
      simp_all <;> omega

/-- Merging two lists that are pairwise-ordered by a transitive relation `R`
compatible with the boolean switch `le` (a true verdict lands in `R`, a
false verdict lands in the reversed `R`) yields an `R`-pairwise list. -/
theorem pairwise_merge_of_compat {α : Type} (le : α → α → Bool) (R : α → α → Prop)
    (htrans : ∀ x y z, R x y → R y z → R x z)
    (h1 : ∀ x y, le x y = true → R x y)
    (h2 : ∀ x y, le x y = false → R y x) :
    ∀ (xs ys : List α), xs.Pairwise R → ys.Pairwise R →
      (xs.merge ys le).Pairwise R
  | [], ys, _, hys => by simpa using hys
  | x :: xs, [], hxs, _ => by simpa using hxs
  | x :: xs, y :: ys, hxs, hys => by
    rw [List.cons_merge_cons]
    cases hxy : le x y with
    | true =>
      simp only [hxy, if_true]
      rw [List.pairwise_cons]
      refine ⟨?_, pairwise_merge_of_compat le R htrans h1 h2 xs (y :: ys)
        (List.pairwise_cons.mp hxs).2 hys⟩
      intro z hz
      rw [List.mem_merge] at hz
      rcases hz with hz | hz
      · exact (List.pairwise_cons.mp hxs).1 z hz
      · rcases List.mem_cons.mp hz with rfl | hz
        · exact h1 x z hxy
        · exact htrans x y z (h1 x y hxy) ((List.pairwise_cons.mp hys).1 z hz)
    | false =>
      rw [if_neg (by simp)]
      rw [List.pairwise_cons]
      have hyx : R y x := h2 x y hxy
      refine ⟨?_, pairwise_merge_of_compat le R htrans h1 h2 (x :: xs) ys hxs
        (List.pairwise_cons.mp hys).2⟩
      intro z hz
      rw [List.mem_merge] at hz
      rcases hz with hz | hz
      · rcases List.mem_cons.mp hz with rfl | hz
        · exact hyx
        · exact htrans y x z hyx ((List.pairwise_cons.mp hxs).1 z hz)
      · exact (List.pairwise_cons.mp hys).1 z hz
termination_by xs ys => xs.length + ys.length

/-- The merge sort driven by a switch `le` compatible with a transitive `R`
produces an `R`-pairwise list, even when `le` itself is neither total nor
transitive (the situation of the dashboard comparator on dateless pairs). -/
theorem pairwise_mergeSort_of_compat {α : Type} (le : α → α → Bool) (R : α → α → Prop)
    (htrans : ∀ x y z, R x y → R y z → R x z)
    (h1 : ∀ x y, le x y = true → R x y)
    (h2 : ∀ x y, le x y = false → R y x) :
    ∀ (l : List α), (l.mergeSort le).Pairwise R
  | [] => by simp [List.mergeSort]
  | [a] => by simp [List.mergeSort]
  | a :: b :: xs => by
    have hl1 : (List.splitInTwo ⟨a :: b :: xs, rfl⟩).1.1.length < xs.length + 1 + 1 := by
      simp [List.splitInTwo_fst]
      omega
    have hl2 : (List.splitInTwo ⟨a :: b :: xs, rfl⟩).2.1.length < xs.length + 1 + 1 := by
      simp [List.splitInTwo_snd]
      omega
    rw [List.mergeSort]
    exact pairwise_merge_of_compat le R htrans h1 h2 _ _
      (pairwise_mergeSort_of_compat le R htrans h1 h2 _)
      (pairwise_mergeSort_of_compat le R htrans h1 h2 _)
termination_by l => l.length

/-- A merge keeps the left input's elements in their relative order. -/
theorem sublist_merge_left {α : Type} (le : α → α → Bool) :
    ∀ (xs ys : List α), List.Sublist xs (xs.merge ys le)
  | [], ys => List.nil_sublist _
  | x :: xs, [] => by simp
  | x :: xs, y :: ys => by
    rw [List.cons_merge_cons]
    cases hxy : le x y with
    | true =>
      rw [if_pos rfl]
      exact List.Sublist.cons₂ x (sublist_merge_left le xs (y :: ys))
    | false =>
      rw [if_neg (by simp)]
      exact List.Sublist.cons y (sublist_merge_left le (x :: xs) ys)
termination_by xs ys => xs.length + ys.length

/-- A merge keeps the right input's elements in their relative order. -/
theorem sublist_merge_right {α : Type} (le : α → α → Bool) :
    ∀ (xs ys : List α), List.Sublist ys (xs.merge ys le)
  | [], ys => by simp
  | x :: xs, [] => List.nil_sublist _
  | x :: xs, y :: ys => by
    rw [List.cons_merge_cons]
    cases hxy : le x y with
    | true =>
      rw [if_pos rfl]
      exact List.Sublist.cons x (sublist_merge_right le xs (y :: ys))
    | false =>
      rw [if_neg (by simp)]
      exact List.Sublist.cons₂ y (sublist_merge_right le (x :: xs) ys)
termination_by xs ys => xs.length + ys.length

/-- When `a` sits in the `R`-pairwise left input and `b` in the right input,
`le a b` holds, and everything `R`-below `a` is still `le`-before `b`, the
merge emits `a` before `b`. -/
theorem pair_sublist_merge_key {α : Type} (le : α → α → Bool) (R : α → α → Prop)
    (a b : α) (hab : le a b = true) (hC : ∀ c, R c a → le c b = true) :
    ∀ (xs ys : List α), xs.Pairwise R → a ∈ xs → b ∈ ys →
      List.Sublist [a, b] (xs.merge ys le)
  | [], _, _, ha, _ => absurd ha (List.not_mem_nil a)
  | _ :: _, [], _, _, hb => absurd hb (List.not_mem_nil b)
  | x :: xs, y :: ys, hxs, ha, hb => by
    rw [List.cons_merge_cons]
    cases hxy : le x y with
    | false =>
      rw [if_neg (by simp)]
      have hbney : b ≠ y := by
        rintro rfl
        rcases List.mem_cons.mp ha with rfl | hax
        · rw [hab] at hxy
          cases hxy
        · have hRxa : R x a := (List.pairwise_cons.mp hxs).1 a hax
          rw [hC x hRxa] at hxy
          cases hxy
      have hb' : b ∈ ys := by
        rcases List.mem_cons.mp hb with rfl | h
        · exact absurd rfl hbney
        · exact h
      exact List.Sublist.cons y
        (pair_sublist_merge_key le R a b hab hC (x :: xs) ys hxs ha hb')
    | true =>
      rw [if_pos rfl]
      rcases List.mem_cons.mp ha with rfl | hax
      · exact List.Sublist.cons₂ a
          (List.singleton_sublist.mpr (List.mem_merge.mpr (Or.inr hb)))
      · exact List.Sublist.cons x
          (pair_sublist_merge_key le R a b hab hC xs (y :: ys)
            (List.pairwise_cons.mp hxs).2 hax hb)
termination_by xs ys => xs.length + ys.length

/-- Stability of the merge sort for a pair that the switch accepts in order
(`le a b`), provided the transitive `R` is compatible with `le` and every
element `R`-tied below `a` is still `le`-before `b`: if `a` occurs before
`b` in the input, it still does in the output. -/
theorem pair_sublist_mergeSort_key {α : Type} (le : α → α → Bool) (R : α → α → Prop)
    (htrans : ∀ x y z, R x y → R y z → R x z)
    (h1 : ∀ x y, le x y = true → R x y)
    (h2 : ∀ x y, le x y = false → R y x)
    (a b : α) (hab : le a b = true) (hC : ∀ c, R c a → le c b = true) :
    ∀ (l : List α), List.Sublist [a, b] l → List.Sublist [a, b] (l.mergeSort le)
  | [], h => by
    have := h.length_le
    simp at this
  | [x], h => by
    have := h.length_le
    simp at this
  | x :: y :: xs, h => by
    have hl1 : (List.splitInTwo ⟨x :: y :: xs, rfl⟩).1.1.length < xs.length + 1 + 1 := by
      simp [List.splitInTwo_fst]
      omega
    have hl2 : (List.splitInTwo ⟨x :: y :: xs, rfl⟩).2.1.length < xs.length + 1 + 1 := by
      simp [List.splitInTwo_snd]
      omega
    rw [List.mergeSort]
    have hsplit : (List.splitInTwo ⟨x :: y :: xs, rfl⟩).1.1 ++
        (List.splitInTwo ⟨x :: y :: xs, rfl⟩).2.1 = x :: y :: xs :=
      List.splitInTwo_fst_append_splitInTwo_snd ⟨x :: y :: xs, rfl⟩
    rw [← hsplit, List.sublist_append_iff] at h
    obtain ⟨l₁, l₂, heq, hfst, hsnd⟩ := h
    rcases l₁ with _ | ⟨a', l₁⟩
    · rw [List.nil_append] at heq
      subst heq
      exact (pair_sublist_mergeSort_key le R htrans h1 h2 a b hab hC _ hsnd).trans
        (sublist_merge_right le _ _)
    · rcases l₁ with _ | ⟨b', l₁⟩
      · rw [List.cons_append, List.nil_append] at heq
        injection heq with he1 he2
        subst he1
        subst he2
        have ha : a ∈ (List.splitInTwo ⟨x :: y :: xs, rfl⟩).1.1.mergeSort le :=
          List.mem_mergeSort.mpr (List.singleton_sublist.mp hfst)
        have hb : b ∈ (List.splitInTwo ⟨x :: y :: xs, rfl⟩).2.1.mergeSort le :=
          List.mem_mergeSort.mpr (List.singleton_sublist.mp hsnd)
        exact pair_sublist_merge_key le R a b hab hC _ _
          (pairwise_mergeSort_of_compat le R htrans h1 h2 _) ha hb
      · rw [List.cons_append, List.cons_append] at heq
        injection heq with he1 heq'
        injection heq' with he2 heq''
        have hla : l₁ = [] := by
          cases l₁
          · rfl
          · simp at heq''
        have hlb : l₂ = [] := by
          subst hla
          simpa using heq''.symm
        subst he1
        subst he2
        subst hla
        subst hlb
        exact (pair_sublist_mergeSort_key le R htrans h1 h2 a b hab hC _ hfst).trans
          (sublist_merge_left le _ _)
termination_by l => l.length

/-- After derivation, a subscription with no next actionable date (all
fulfillments shipped) is never `'Action Required'`: the derivation returns
`'Fulfilled'`, or keeps a sticky `'On Hold'`. -/
theorem applyDerivedStatus_no_date_not_AR (t : Subscription)
    (hnone : getNextActionableDate (applyDerivedStatus t) = none) :
    (applyDerivedStatus t).status ≠ "Action Required" := by
  have hfind : t.fulfillments.find? (fun f => decide (f.status ≠ "Shipped")) = none := by
    have h0 : getNextActionableDate t = none := hnone
    simpa [getNextActionableDate, Option.map_eq_none'] using h0
  have hall : ∀ f ∈ t.fulfillments, f.status = "Shipped" := by
    intro f hf
    have h := List.find?_eq_none.mp hfind f hf
    simpa using h
  simp only [applyDerivedStatus, deriveStatus]
  by_cases hHold : t.status = "On Hold"
  · rw [if_pos hHold, hHold]
    decide
  · have hAllb : (t.fulfillments.all fun f => decide (f.status = "Shipped")) = true := by
      simp only [List.all_eq_true, decide_eq_true_eq]
      exact hall
    rw [if_neg hHold, if_pos hAllb]
    decide

/-- C5: the snapshot pipeline (derive each status, then sort) produces an
ordering in which every `'Action Required'` subscription precedes every
other; among the rest, records with a next actionable date appear in
ascending date order; and records with no non-shipped fulfillment come
after every record that still has one. -/
theorem processSnapshot_order_spec (subs : List Subscription) :
    (processSnapshot subs).Pairwise (fun x y =>
      (y.status = "Action Required" → x.status = "Action Required") ∧
      (∀ dx dy, getNextActionableDate x = some dx → getNextActionableDate y = some dy →
        x.status ≠ "Action Required" → dx ≤ dy) ∧
      (getNextActionableDate x = none → getNextActionableDate y = none)) := by
  have hpw : (processSnapshot subs).Pairwise keyLe :=
    pairwise_mergeSort_of_compat subLe keyLe keyLe_trans subLe_imp_keyLe
      not_subLe_imp_keyLe _
  refine List.Pairwise.imp_of_mem ?_ hpw
  intro x y hx hy hk
  have hxinv : getNextActionableDate x = none → x.status ≠ "Action Required" := by
    intro hn
    have hx' : x ∈ subs.map applyDerivedStatus := List.mem_mergeSort.mp hx
    obtain ⟨t, -, rfl⟩ := List.mem_map.mp hx'
    exact applyDerivedStatus_no_date_not_AR t hn
  refine ⟨?_, ?_, ?_⟩
  · intro hyAR
    by_contra hxAR
    simp only [keyLe, arRank, if_pos hyAR, if_neg hxAR] at hk
    omega
  · intro dx dy hdx hdy hxAR
    simp only [keyLe, arRank, dateRank, dateVal, hdx, hdy, if_neg hxAR] at hk
    by_cases hyAR : y.status = "Action Required"
    · simp only [if_pos hyAR] at hk
      omega
    · simp only [if_neg hyAR] at hk
      omega
  · intro hxnone
    have hxAR := hxinv hxnone
    simp only [keyLe, arRank, dateRank, dateVal, hxnone, if_neg hxAR] at hk
    by_cases hyAR : y.status = "Action Required"
    · simp only [if_pos hyAR] at hk
      omega
    · simp only [if_neg hyAR] at hk
      rcases hdy : getNextActionableDate y with _ | dy
      · rfl
      · simp only [hdy] at hk
        omega

/-- Counterexample for C6: two distinct fully-shipped subscriptions have
equal sort keys (neither `'Action Required'`, both with no next actionable
date), yet the comparator reports each as sorting after the other
(`comparator(a, b) = comparator(b, a) = 1`), and the resulting sort reverses
their input order instead of retaining it. -/
theorem sort_not_stable_on_dateless_pair :
    sortedSubscriptions [exShippedA, exShippedB] = [exShippedB, exShippedA] ∧
    exShippedA ≠ exShippedB := by
  constructor
  · have hle : subLe exShippedA exShippedB = false := by decide
    simp [sortedSubscriptions, List.mergeSort, List.splitInTwo, List.splitAt_eq,
      List.merge, hle]
  · decide

/-- C6 (amended): the sort retains the relative input order of two
subscriptions with equal sort keys whenever they possess a next actionable
date; a pair of records both lacking one (the case the counterexample
exhibits) is not protected, because the comparator is inconsistent there. -/
theorem sort_stable_on_dated_ties (l : List Subscription) (a b : Subscription)
    (hsub : List.Sublist [a, b] l)
    (harEq : (a.status = "Action Required") ↔ (b.status = "Action Required"))
    (hdate : getNextActionableDate a = getNextActionableDate b)
    (hsome : (getNextActionableDate a).isSome = true) :
    List.Sublist [a, b] (sortedSubscriptions l) := by
  obtain ⟨da, hda⟩ := Option.isSome_iff_exists.mp hsome
  have hdb : getNextActionableDate b = some da := by
    rw [← hdate]
    exact hda
  have hnot1 : ¬(a.status = "Action Required" ∧ ¬b.status = "Action Required") := by
    rintro ⟨h, h'⟩
    exact h' (harEq.mp h)
  have hnot2 : ¬(b.status = "Action Required" ∧ ¬a.status = "Action Required") := by
    rintro ⟨h, h'⟩
    exact h' (harEq.mpr h)
  have hab : subLe a b = true := by
    simp only [subLe, subCmp, ne_eq, if_neg hnot1, if_neg hnot2, hda, hdb,
      decide_eq_true_eq]
    omega
  have hC : ∀ c, keyLe c a → subLe c b = true := by
    intro c hca
    simp only [keyLe, arRank, dateRank, dateVal, hda] at hca
    by_cases hcAR : c.status = "Action Required" <;>
      by_cases haAR : a.status = "Action Required"
    · have hbAR : b.status = "Action Required" := harEq.mp haAR
      rcases hdc : getNextActionableDate c with _ | dc
      · simp only [hdc, if_pos hcAR, if_pos haAR] at hca
        omega
      · simp only [hdc, if_pos hcAR, if_pos haAR] at hca
        simp only [subLe, subCmp, ne_eq, not_not, hbAR, hcAR, not_true_eq_false,
          and_false, if_false, hdc, hdb, decide_eq_true_eq]
        omega
    · have hbAR : ¬b.status = "Action Required" := fun h => haAR (harEq.mpr h)
      simp only [subLe, subCmp, ne_eq, hcAR, hbAR, not_false_eq_true, and_true,
        if_pos, decide_eq_true_eq]
      omega
    · simp only [if_neg hcAR, if_pos haAR] at hca
      omega
    · have hbAR : ¬b.status = "Action Required" := fun h => haAR (harEq.mpr h)
      rcases hdc : getNextActionableDate c with _ | dc
      · simp only [hdc, if_neg hcAR, if_neg haAR] at hca
        omega
      · simp only [hdc, if_neg hcAR, if_neg haAR] at hca
        have hn1 : ¬(c.status = "Action Required" ∧ ¬b.status = "Action Required") := by
          rintro ⟨h, -⟩
          exact hcAR h
        have hn2 : ¬(b.status = "Action Required" ∧ ¬c.status = "Action Required") := by
          rintro ⟨h, -⟩
          exact hbAR h
        simp only [subLe, subCmp, ne_eq, if_neg hn1, if_neg hn2, hdc, hdb,
          decide_eq_true_eq]
        omega
  exact pair_sublist_mergeSort_key subLe keyLe keyLe_trans subLe_imp_keyLe
    not_subLe_imp_keyLe a b hab hC l hsub

/-- Witness for the amended C6 on a concrete tied pair with dates. -/
theorem sort_stable_on_dated_ties_witness :
    List.Sublist [exTiedA, exTiedB] (sortedSubscriptions [exTiedA, exTiedB]) :=
  sort_stable_on_dated_ties [exTiedA, exTiedB] exTiedA exTiedB
    (List.Sublist.refl _) (by decide) (by decide) (by decide)

